import Mathlib

/-!
Shallow embedding of the nestjs-voter authorization pipeline.

The embedding follows `src/interceptors/voter.interceptor.ts` together with
the decorator metadata shape of `src/decorators/pre-auth-voter.decorator.ts`
and `src/decorators/post-auth-voter.decorator.ts`, the voter capability
surface of `src/models/voter.interface.ts`, and the exception class
`VoterException` (a `ForbiddenException` subclass carrying a message).

Dynamic JavaScript values are modelled by `Value`; request argument maps
(`params`, `query`, `body`, GraphQL args) by functions `String → Option Value`
with JS object-spread semantics; a voter instance by its optional `supports`
function together with a property table `methods : String → Option MethodSlot`
distinguishing an absent property (`none`), a present but non-callable
property (`MethodSlot.notCallable`, which the interceptor rejects with a
`TypeError`), and a callable decision method (`MethodSlot.callable`).
`getVoterInstance` (module lookup with fallback construction) is abstracted
as an ambient `resolve : VoterClass → Voter` environment.

Evaluation is instrumented with a trace of `Event`s recording which
predicates, voters and decision methods are invoked and when the handler
runs; errors raised inside the voter loops are paired with the loop index of
the rule that raised them.  All decision functions are awaited sequentially
in the source, so they are modelled as pure `Bool`-valued functions.
-/

namespace NestVoter

/-- Dynamic JavaScript value, sufficient for concrete test inputs. -/
inductive Value
  | null
  | bool (b : Bool)
  | num (n : Int)
  | str (s : String)
deriving DecidableEq, Repr

/-- Operation type enum: `http` for plain HTTP handlers, and the three
GraphQL operation kinds (`operation-type.enum.ts`; the string values are
fixed by their uses in `getRequest`/`getMethodContext`). -/
inductive OperationType
  | http
  | query
  | mutation
  | subscription
deriving DecidableEq, Repr

/-- Execution-context transport type, `context.getType<'http' | 'graphql'>()`. -/
inductive CtxType
  | http
  | graphql
deriving DecidableEq, Repr

/-- The protocol-specific raw execution context: transport type, handler /
field names, the GraphQL operation string from `info.operation.operation`,
the authenticated `req.user`, and the raw argument maps. -/
structure RawCtx where
  ctxType : CtxType
  handlerName : String
  gqlFieldName : String
  gqlOperation : String
  user : Option Value
  params : String → Option Value
  reqQuery : String → Option Value
  body : String → Option Value
  gqlArgs : String → Option Value

/-- `VoterContext` of `src/models/voter-context.interface.ts`: `data` is
`null` before the handler runs and the handler output afterwards. -/
structure VoterContext where
  data : Value
  args : String → Option Value
  auth : Option Value
  context : RawCtx
  methodName : String
  operationType : OperationType

/-- A property found on a voter instance under a given name: either a
callable decision method or a non-function property. -/
inductive MethodSlot
  | callable (f : VoterContext → Bool)
  | notCallable

/-- A voter class is identified by its `name` (used in error messages). -/
structure VoterClass where
  name : String
deriving DecidableEq, Repr

/-- A resolved voter instance: optional `supports` filter plus its property
table (`methodName in voter` is `(methods n).isSome`; `typeof voter[n] ===
'function'` is `methods n = some (callable f)`). -/
structure Voter where
  supports : Option (Value → Bool)
  methods : String → Option MethodSlot

/-- Rule descriptor recorded by the decorators (`PreAuthVoterMetadata` /
`PostAuthVoterMetadata`): an optional voter class with optional method name,
or an inline predicate (`staticMethod`). -/
structure VoterMetadata where
  voterClass : Option VoterClass := none
  methodName : Option String := none
  staticMethod : Option (VoterContext → Bool) := none

/-- Observable evaluation events, indexed by the position of the rule in its
phase's metadata list. -/
inductive Event
  | evalStatic (i : Nat)
  | resolveVoter (i : Nat) (cls : String)
  | callSupports (i : Nat) (cls : String)
  | evalMethod (i : Nat) (cls : String) (methodName : String)
  | handlerCall
deriving DecidableEq, Repr

/-- Errors thrown inside the voter loops: `VoterException` (denied, a
`ForbiddenException`), plain `Error` for a missing method, `TypeError` for a
present but non-callable property. -/
inductive VoterError
  | denied (msg : String)
  | methodNotFound (msg : String)
  | notCallable (msg : String)
deriving DecidableEq, Repr

/-- Errors observable from `intercept`: the unknown-operation `Error` from
`getMethodContext`, or a voter-loop error tagged with its phase and the
index of the rule that raised it. -/
inductive InterceptError
  | unknownOperation (msg : String)
  | pre (i : Nat) (e : VoterError)
  | post (i : Nat) (e : VoterError)
deriving DecidableEq, Repr

/-- `meta.methodName || 'vote'`: JS falsy defaulting, so an absent *or empty*
method name falls back to `"vote"`. -/
def orVote : Option String → String
  | none => "vote"
  | some s => if s = "" then "vote" else s

/-- One iteration of the `executePreAuthVoters` loop body
(`voter.interceptor.ts` lines 84-111) for the rule at index `i`. -/
def preAuthStep (resolve : VoterClass → Voter) (meta : VoterMetadata)
    (context : VoterContext) (i : Nat) : List Event × Option (Nat × VoterError) :=
  match meta.staticMethod with
  | some f =>
    if f context then
      ([Event.evalStatic i], none)
    else
      ([Event.evalStatic i], some (i, VoterError.denied "Pre-authorization access denied"))
  | none =>
    match meta.voterClass with
    | some cls =>
      let voter := resolve cls
      let methodName := orVote meta.methodName
      match voter.methods methodName with
      | none =>
        ([Event.resolveVoter i cls.name],
         some (i, VoterError.methodNotFound
           ("Method " ++ methodName ++ " not found in " ++ cls.name)))
      | some MethodSlot.notCallable =>
        ([Event.resolveVoter i cls.name],
         some (i, VoterError.notCallable
           (methodName ++ " is not a function in " ++ cls.name)))
      | some (MethodSlot.callable f) =>
        if f context then
          ([Event.resolveVoter i cls.name, Event.evalMethod i cls.name methodName], none)
        else
          ([Event.resolveVoter i cls.name, Event.evalMethod i cls.name methodName],
           some (i, VoterError.denied
             ("Pre-authorization denied by " ++ cls.name ++ "." ++ methodName)))
    | none => ([], none)

/-- Method lookup and invocation shared by the voter-class branch of the
post-phase loop body, after the `supports` filter has let the rule through;
`tr` is the trace accumulated so far for this rule. -/
def postAuthInvoke (voter : Voter) (cls : VoterClass) (meta : VoterMetadata)
    (context : VoterContext) (i : Nat) (tr : List Event) :
    List Event × Option (Nat × VoterError) :=
  let methodName := orVote meta.methodName
  match voter.methods methodName with
  | none =>
    (tr, some (i, VoterError.methodNotFound
      ("Method " ++ methodName ++ " not found in " ++ cls.name)))
  | some MethodSlot.notCallable =>
    (tr, some (i, VoterError.notCallable
      (methodName ++ " is not a function in " ++ cls.name)))
  | some (MethodSlot.callable f) =>
    if f context then
      (tr ++ [Event.evalMethod i cls.name methodName], none)
    else
      (tr ++ [Event.evalMethod i cls.name methodName],
       some (i, VoterError.denied
         ("Post-authorization denied by " ++ cls.name ++ "." ++ methodName)))

/-- One iteration of the `executePostAuthVoters` loop body
(`voter.interceptor.ts` lines 115-146): like the pre-phase but with the
`if (voter.supports && !voter.supports(context.data)) continue` filter. -/
def postAuthStep (resolve : VoterClass → Voter) (meta : VoterMetadata)
    (context : VoterContext) (i : Nat) : List Event × Option (Nat × VoterError) :=
  match meta.staticMethod with
  | some f =>
    if f context then
      ([Event.evalStatic i], none)
    else
      ([Event.evalStatic i], some (i, VoterError.denied "Post-authorization access denied"))
  | none =>
    match meta.voterClass with
    | some cls =>
      let voter := resolve cls
      match voter.supports with
      | some s =>
        if s context.data then
          postAuthInvoke voter cls meta context i
            [Event.resolveVoter i cls.name, Event.callSupports i cls.name]
        else
          ([Event.resolveVoter i cls.name, Event.callSupports i cls.name], none)
      | none =>
        postAuthInvoke voter cls meta context i [Event.resolveVoter i cls.name]
    | none => ([], none)

/-- `executePreAuthVoters`: fold the pre-phase loop over the metadata list
starting at rule index `i`, short-circuiting on the first thrown error. -/
def executePreAuthVoters (resolve : VoterClass → Voter)
    (metadata : List VoterMetadata) (context : VoterContext) (i : Nat) :
    List Event × Option (Nat × VoterError) :=
  match metadata with
  | [] => ([], none)
  | meta :: rest =>
    let step := preAuthStep resolve meta context i
    match step.2 with
    | some e => (step.1, some e)
    | none =>
      let r := executePreAuthVoters resolve rest context (i + 1)
      (step.1 ++ r.1, r.2)

/-- `executePostAuthVoters`: fold the post-phase loop over the metadata list
starting at rule index `i`, short-circuiting on the first thrown error. -/
def executePostAuthVoters (resolve : VoterClass → Voter)
    (metadata : List VoterMetadata) (context : VoterContext) (i : Nat) :
    List Event × Option (Nat × VoterError) :=
  match metadata with
  | [] => ([], none)
  | meta :: rest =>
    let step := postAuthStep resolve meta context i
    match step.2 with
    | some e => (step.1, some e)
    | none =>
      let r := executePostAuthVoters resolve rest context (i + 1)
      (step.1 ++ r.1, r.2)

/-- JS object spread `{...a, ...b}` on argument maps: a key present in `b`
wins over the same key in `a`. -/
def objSpread (a b : String → Option Value) : String → Option Value :=
  fun k => match b k with
  | some v => some v
  | none => a k

/-- `getMethodArguments` (`voter.interceptor.ts` lines 170-184): for HTTP
requests the spread `{...request.params, ...request.query, ...request.body}`,
for GraphQL the resolver's argument map. -/
def getMethodArguments (raw : RawCtx) : String → Option Value :=
  if raw.ctxType = CtxType.http then
    objSpread (objSpread raw.params raw.reqQuery) raw.body
  else
    raw.gqlArgs

/-- `getMethodContext` (`voter.interceptor.ts` lines 186-220): HTTP yields
the handler name with operation type `http`; GraphQL validates the operation
string against the three known kinds and otherwise throws
`Unknown GraphQL operation type: ...`. -/
def getMethodContext (raw : RawCtx) : Except String (String × OperationType) :=
  if raw.ctxType = CtxType.http then
    Except.ok (raw.handlerName, OperationType.http)
  else if raw.gqlOperation = "query" then
    Except.ok (raw.gqlFieldName, OperationType.query)
  else if raw.gqlOperation = "mutation" then
    Except.ok (raw.gqlFieldName, OperationType.mutation)
  else if raw.gqlOperation = "subscription" then
    Except.ok (raw.gqlFieldName, OperationType.subscription)
  else
    Except.error ("Unknown GraphQL operation type: " ++ raw.gqlOperation)

/-- The `VoterContext` the interceptor constructs before the pre phase:
`data` is `null`, `args` come from `getMethodArguments`, `auth` is
`req.user`. -/
def mkVoterContext (raw : RawCtx) (methodName : String)
    (operationType : OperationType) : VoterContext :=
  { data := Value.null
    args := getMethodArguments raw
    auth := raw.user
    context := raw
    methodName := methodName
    operationType := operationType }

/-- `intercept` (`voter.interceptor.ts` lines 42-81): when neither phase has
metadata the handler result passes straight through; otherwise the context is
built (which may throw the unknown-operation error), the pre phase runs, the
handler runs, and if post metadata exists the post phase runs on the handler
output before it is returned. -/
def intercept (resolve : VoterClass → Voter)
    (preAuthMetadata postAuthMetadata : Option (List VoterMetadata))
    (raw : RawCtx) (handlerOutput : Value) :
    List Event × Except InterceptError Value :=
  match preAuthMetadata, postAuthMetadata with
  | none, none => ([Event.handlerCall], Except.ok handlerOutput)
  | pre, post =>
    match getMethodContext raw with
    | Except.error msg => ([], Except.error (InterceptError.unknownOperation msg))
    | Except.ok (methodName, operationType) =>
      let voterContext := mkVoterContext raw methodName operationType
      let preRes := match pre with
        | some pm => executePreAuthVoters resolve pm voterContext 0
        | none => ([], none)
      match preRes.2 with
      | some (i, e) => (preRes.1, Except.error (InterceptError.pre i e))
      | none =>
        match post with
        | some qm =>
          let postCtx := { voterContext with data := handlerOutput }
          let postRes := executePostAuthVoters resolve qm postCtx 0
          match postRes.2 with
          | some (i, e) =>
            (preRes.1 ++ Event.handlerCall :: postRes.1,
             Except.error (InterceptError.post i e))
          | none =>
            (preRes.1 ++ Event.handlerCall :: postRes.1, Except.ok handlerOutput)
        | none => (preRes.1 ++ [Event.handlerCall], Except.ok handlerOutput)

/-- One decorator registration call: `Reflect.defineMetadata(KEY,
[...existingMetadata, metadata], ...)` appends the new descriptor. -/
def registerVoterMetadata (existing : List VoterMetadata)
    (meta : VoterMetadata) : List VoterMetadata :=
  existing ++ [meta]

/-- The boolean a rule's decision function returns on a given context, when
the rule has one: the inline predicate's value, or the named method's value
when the resolved voter has it as a callable; `none` when the rule has no
decision function (empty descriptor, missing or non-callable method). -/
def decisionOf (resolve : VoterClass → Voter) (meta : VoterMetadata)
    (context : VoterContext) : Option Bool :=
  match meta.staticMethod with
  | some f => some (f context)
  | none =>
    match meta.voterClass with
    | some cls =>
      match (resolve cls).methods (orVote meta.methodName) with
      | some (MethodSlot.callable f) => some (f context)
      | _ => none
    | none => none

/-- Trace emitted by one pre-phase step whose decision function runs (the
trace is the same whether the decision is true or false). -/
def passTrace (meta : VoterMetadata) (i : Nat) : List Event :=
  match meta.staticMethod with
  | some _ => [Event.evalStatic i]
  | none =>
    match meta.voterClass with
    | some cls =>
      [Event.resolveVoter i cls.name, Event.evalMethod i cls.name (orVote meta.methodName)]
    | none => []

/-- Trace of a run of consecutive pre-phase rules that all pass, the first
carrying index `i`. -/
def trueTrace (metas : List VoterMetadata) (i : Nat) : List Event :=
  match metas with
  | [] => []
  | meta :: rest => passTrace meta i ++ trueTrace rest (i + 1)

/-- The `VoterException` message produced when a pre-phase rule denies. -/
def preDenyMsg (meta : VoterMetadata) : String :=
  match meta.staticMethod with
  | some _ => "Pre-authorization access denied"
  | none =>
    match meta.voterClass with
    | some cls => "Pre-authorization denied by " ++ cls.name ++ "." ++ orVote meta.methodName
    | none => ""

/-- The rule index of a decision-function invocation event, `none` for
events that are not decision invocations. -/
def decisionIdx : Event → Option Nat
  | Event.evalStatic i => some i
  | Event.evalMethod i _ _ => some i
  | _ => none

/-- The rule index an event carries (`0` for the handler call, which is not
tied to a rule). -/
def eventIdx : Event → Nat
  | Event.evalStatic i => i
  | Event.resolveVoter i _ => i
  | Event.callSupports i _ => i
  | Event.evalMethod i _ _ => i
  | Event.handlerCall => 0

/-- A voter instance with no `supports` filter and no properties. -/
def emptyVoter : Voter := { supports := none, methods := fun _ => none }

/-- Resolver environment mapping every class to the empty voter. -/
def resolveEmpty : VoterClass → Voter := fun _ => emptyVoter

/-- A concrete HTTP raw context whose `params`, `query` and `body` maps all
bind the key `"id"`, with distinct values, so collisions are observable. -/
def rawHttp : RawCtx :=
  { ctxType := CtxType.http
    handlerName := "getUser"
    gqlFieldName := ""
    gqlOperation := ""
    user := some (Value.str "u1")
    params := fun k => if k = "id" then some (Value.str "fromParams") else none
    reqQuery := fun k =>
      if k = "id" then some (Value.str "fromQuery")
      else if k = "page" then some (Value.num 2) else none
    body := fun k =>
      if k = "id" then some (Value.str "fromBody")
      else if k = "name" then some (Value.str "n") else none
    gqlArgs := fun _ => none }

/-- A concrete GraphQL raw context carrying an unrecognized operation kind. -/
def rawGqlBadOp : RawCtx :=
  { ctxType := CtxType.graphql
    handlerName := ""
    gqlFieldName := "posts"
    gqlOperation := "subscribe"
    user := none
    params := fun _ => none
    reqQuery := fun _ => none
    body := fun _ => none
    gqlArgs := fun _ => none }

/-- Inline predicate rule that always allows. -/
def metaTrue : VoterMetadata := { staticMethod := some (fun _ => true) }

/-- Inline predicate rule that always denies. -/
def metaFalse : VoterMetadata := { staticMethod := some (fun _ => false) }

/-- A concrete voter class handle. -/
def clsUser : VoterClass := { name := "UserVoter" }

/-- Voter whose `vote` method is callable and always denies. -/
def voterDenyAll : Voter :=
  { supports := none
    methods := fun n => if n = "vote" then some (MethodSlot.callable (fun _ => false)) else none }

/-- Voter whose `supports` filter rejects every datum; its `vote` method
would deny if it were ever invoked. -/
def voterUnsupported : Voter :=
  { supports := some (fun _ => false)
    methods := fun n => if n = "vote" then some (MethodSlot.callable (fun _ => false)) else none }

/-- Voter carrying a non-callable `vote` property. -/
def voterBadVote : Voter :=
  { supports := none
    methods := fun n => if n = "vote" then some MethodSlot.notCallable else none }

/-- Resolver mapping every class to `voterDenyAll`. -/
def resolveDeny : VoterClass → Voter := fun _ => voterDenyAll

/-- Resolver mapping every class to `voterUnsupported`. -/
def resolveUnsupported : VoterClass → Voter := fun _ => voterUnsupported

/-- Resolver mapping every class to `voterBadVote`. -/
def resolveBadVote : VoterClass → Voter := fun _ => voterBadVote

/-- Voter-class rule with the default method name. -/
def metaVoter : VoterMetadata := { voterClass := some clsUser }

/-- Descriptor carrying both an inline predicate (always true) and a voter
class. -/
def metaBoth : VoterMetadata :=
  { voterClass := some clsUser, staticMethod := some (fun _ => true) }

/-- Descriptor carrying neither an inline predicate nor a voter class. -/
def metaEmptyDesc : VoterMetadata := {}

/-- The `VoterContext` the interceptor builds for `rawHttp`. -/
def ctxHttp : VoterContext := mkVoterContext rawHttp "getUser" OperationType.http

section Lemmas

variable (resolve : VoterClass → Voter)

theorem preAuthStep_of_decision_true {meta : VoterMetadata} {c : VoterContext}
    (i : Nat) (h : decisionOf resolve meta c = some true) :
    preAuthStep resolve meta c i = (passTrace meta i, none) := by
  unfold decisionOf at h
  unfold preAuthStep passTrace
  cases hs : meta.staticMethod with
  | some f =>
    simp only [hs] at h ⊢
    simp only [Option.some.injEq] at h
    simp [h]
  | none =>
    simp only [hs] at h ⊢
    cases hc : meta.voterClass with
    | none => simp [hc] at h
    | some cls =>
      simp only [hc] at h ⊢
      cases hm : (resolve cls).methods (orVote meta.methodName) with
      | none => simp [hm] at h
      | some slot =>
        cases slot with
        | notCallable => simp [hm] at h
        | callable f =>
          simp only [hm, Option.some.injEq] at h ⊢
          simp [h]

theorem preAuthStep_of_decision_false {meta : VoterMetadata} {c : VoterContext}
    (i : Nat) (h : decisionOf resolve meta c = some false) :
    preAuthStep resolve meta c i =
      (passTrace meta i, some (i, VoterError.denied (preDenyMsg meta))) := by
  unfold decisionOf at h
  unfold preAuthStep passTrace preDenyMsg
  cases hs : meta.staticMethod with
  | some f =>
    simp only [hs] at h ⊢
    simp only [Option.some.injEq] at h
    simp [h]
  | none =>
    simp only [hs] at h ⊢
    cases hc : meta.voterClass with
    | none => simp [hc] at h
    | some cls =>
      simp only [hc] at h ⊢
      cases hm : (resolve cls).methods (orVote meta.methodName) with
      | none => simp [hm] at h
      | some slot =>
        cases slot with
        | notCallable => simp [hm] at h
        | callable f =>
          simp only [hm, Option.some.injEq] at h ⊢
          simp [h]

theorem executePreAuthVoters_cons_none {meta : VoterMetadata}
    {c : VoterContext} {i : Nat} (rest : List VoterMetadata)
    (h : (preAuthStep resolve meta c i).2 = none) :
    executePreAuthVoters resolve (meta :: rest) c i =
      ((preAuthStep resolve meta c i).1 ++ (executePreAuthVoters resolve rest c (i + 1)).1,
       (executePreAuthVoters resolve rest c (i + 1)).2) := by
  rw [executePreAuthVoters, h]

theorem executePreAuthVoters_cons_some {meta : VoterMetadata}
    {c : VoterContext} {i : Nat} {e : Nat × VoterError} (rest : List VoterMetadata)
    (h : (preAuthStep resolve meta c i).2 = some e) :
    executePreAuthVoters resolve (meta :: rest) c i =
      ((preAuthStep resolve meta c i).1, some e) := by
  rw [executePreAuthVoters, h]

theorem executePostAuthVoters_cons_none {meta : VoterMetadata}
    {c : VoterContext} {i : Nat} (rest : List VoterMetadata)
    (h : (postAuthStep resolve meta c i).2 = none) :
    executePostAuthVoters resolve (meta :: rest) c i =
      ((postAuthStep resolve meta c i).1 ++ (executePostAuthVoters resolve rest c (i + 1)).1,
       (executePostAuthVoters resolve rest c (i + 1)).2) := by
  rw [executePostAuthVoters, h]

theorem executePostAuthVoters_cons_some {meta : VoterMetadata}
    {c : VoterContext} {i : Nat} {e : Nat × VoterError} (rest : List VoterMetadata)
    (h : (postAuthStep resolve meta c i).2 = some e) :
    executePostAuthVoters resolve (meta :: rest) c i =
      ((postAuthStep resolve meta c i).1, some e) := by
  rw [executePostAuthVoters, h]

theorem executePreAuthVoters_all_true {metas : List VoterMetadata}
    {c : VoterContext} (rest : List VoterMetadata) (i : Nat)
    (h : ∀ m ∈ metas, decisionOf resolve m c = some true) :
    executePreAuthVoters resolve (metas ++ rest) c i =
      (trueTrace metas i ++ (executePreAuthVoters resolve rest c (i + metas.length)).1,
       (executePreAuthVoters resolve rest c (i + metas.length)).2) := by
  induction metas generalizing i with
  | nil => simp [trueTrace]
  | cons meta tail ih =>
    have hmeta : decisionOf resolve meta c = some true := h meta (by simp)
    have htail : ∀ m ∈ tail, decisionOf resolve m c = some true := by
      intro m hm
      exact h m (by simp [hm])
    have hstep := preAuthStep_of_decision_true resolve i hmeta
    have h2 : (preAuthStep resolve meta c i).2 = none := by rw [hstep]
    rw [List.cons_append, executePreAuthVoters_cons_none resolve (tail ++ rest) h2,
      hstep, ih (i + 1) htail]
    have harith : i + 1 + tail.length = i + (meta :: tail).length := by
      simp
      omega
    rw [harith]
    simp [trueTrace]

theorem decisionEvents_of_passTrace {meta : VoterMetadata} {c : VoterContext}
    {b : Bool} (i : Nat) (h : decisionOf resolve meta c = some b) :
    (passTrace meta i).filterMap decisionIdx = [i] := by
  unfold decisionOf at h
  unfold passTrace
  cases hs : meta.staticMethod with
  | some f => simp [decisionIdx]
  | none =>
    simp only [hs] at h
    cases hc : meta.voterClass with
    | none => simp [hc] at h
    | some cls => simp [decisionIdx]

theorem decisionEvents_of_trueTrace {metas : List VoterMetadata}
    {c : VoterContext} (i : Nat)
    (h : ∀ m ∈ metas, decisionOf resolve m c = some true) :
    (trueTrace metas i).filterMap decisionIdx = List.range' i metas.length := by
  induction metas generalizing i with
  | nil => simp [trueTrace]
  | cons meta tail ih =>
    have hmeta : decisionOf resolve meta c = some true := h meta (by simp)
    have htail : ∀ m ∈ tail, decisionOf resolve m c = some true := by
      intro m hm
      exact h m (by simp [hm])
    simp only [trueTrace, List.filterMap_append, List.length_cons, List.range'_succ]
    rw [decisionEvents_of_passTrace resolve i hmeta, ih (i + 1) htail]
    rfl

theorem handlerCall_notin_passTrace (meta : VoterMetadata) (i : Nat) :
    Event.handlerCall ∉ passTrace meta i := by
  unfold passTrace
  cases meta.staticMethod with
  | some f => simp
  | none =>
    cases meta.voterClass with
    | some cls => simp
    | none => simp

theorem handlerCall_notin_trueTrace (metas : List VoterMetadata) (i : Nat) :
    Event.handlerCall ∉ trueTrace metas i := by
  induction metas generalizing i with
  | nil => simp [trueTrace]
  | cons meta tail ih =>
    simp only [trueTrace, List.mem_append, not_or]
    exact ⟨handlerCall_notin_passTrace meta i, ih (i + 1)⟩

theorem intercept_pre_err {mn : String} {ot : OperationType} {i : Nat} {e : VoterError}
    (pm : List VoterMetadata) (post : Option (List VoterMetadata))
    (raw : RawCtx) (out : Value)
    (hctx : getMethodContext raw = Except.ok (mn, ot))
    (hpre : (executePreAuthVoters resolve pm (mkVoterContext raw mn ot) 0).2 = some (i, e)) :
    intercept resolve (some pm) post raw out =
      ((executePreAuthVoters resolve pm (mkVoterContext raw mn ot) 0).1,
       Except.error (InterceptError.pre i e)) := by
  cases post with
  | none =>
    unfold intercept
    rw [hctx]
    simp only [hpre]
  | some qm =>
    unfold intercept
    rw [hctx]
    simp only [hpre]

theorem preAuthStep_decisionEvents (meta : VoterMetadata) (c : VoterContext)
    (i : Nat) :
    (preAuthStep resolve meta c i).1.filterMap decisionIdx = [] ∨
    (preAuthStep resolve meta c i).1.filterMap decisionIdx = [i] := by
  unfold preAuthStep
  cases hs : meta.staticMethod with
  | some f => cases hf : f c <;> simp [hs, hf, decisionIdx]
  | none =>
    cases hc : meta.voterClass with
    | none => simp [hs, hc]
    | some cls =>
      cases hm : (resolve cls).methods (orVote meta.methodName) with
      | none => simp [hs, hc, hm, decisionIdx]
      | some slot =>
        cases slot with
        | notCallable => simp [hs, hc, hm, decisionIdx]
        | callable f => cases hf : f c <;> simp [hs, hc, hm, hf, decisionIdx]

theorem postAuthInvoke_decisionEvents (voter : Voter) (cls : VoterClass)
    (meta : VoterMetadata) (c : VoterContext) (i : Nat) (tr : List Event)
    (htr : tr.filterMap decisionIdx = []) :
    (postAuthInvoke voter cls meta c i tr).1.filterMap decisionIdx = [] ∨
    (postAuthInvoke voter cls meta c i tr).1.filterMap decisionIdx = [i] := by
  unfold postAuthInvoke
  cases hm : voter.methods (orVote meta.methodName) with
  | none => simp [hm, htr]
  | some slot =>
    cases slot with
    | notCallable => simp [hm, htr]
    | callable f =>
      cases hf : f c <;> simp [hm, hf, List.filterMap_append, htr, decisionIdx]

theorem postAuthStep_decisionEvents (meta : VoterMetadata) (c : VoterContext)
    (i : Nat) :
    (postAuthStep resolve meta c i).1.filterMap decisionIdx = [] ∨
    (postAuthStep resolve meta c i).1.filterMap decisionIdx = [i] := by
  unfold postAuthStep
  cases hs : meta.staticMethod with
  | some f => cases hf : f c <;> simp [hs, hf, decisionIdx]
  | none =>
    cases hc : meta.voterClass with
    | none => simp [hs, hc]
    | some cls =>
      cases hsup : (resolve cls).supports with
      | some s =>
        cases hd : s c.data with
        | false => simp [hs, hc, hsup, hd, decisionIdx]
        | true =>
          simp only [hs, hc, hsup, hd, if_true]
          exact postAuthInvoke_decisionEvents (resolve cls) cls meta c i _
            (by simp [decisionIdx])
      | none =>
        simp only [hs, hc, hsup]
        exact postAuthInvoke_decisionEvents (resolve cls) cls meta c i _
          (by simp [decisionIdx])

theorem executePreAuthVoters_decisions_sorted (metas : List VoterMetadata)
    (c : VoterContext) (i : Nat) :
    (∀ n ∈ (executePreAuthVoters resolve metas c i).1.filterMap decisionIdx, i ≤ n) ∧
    List.Sorted (· < ·)
      ((executePreAuthVoters resolve metas c i).1.filterMap decisionIdx) := by
  induction metas generalizing i with
  | nil => simp [executePreAuthVoters]
  | cons meta rest ih =>
    cases herr : (preAuthStep resolve meta c i).2 with
    | some e =>
      rw [executePreAuthVoters_cons_some resolve rest herr]
      rcases preAuthStep_decisionEvents resolve meta c i with hstep | hstep <;>
        simp [hstep]
    | none =>
      rw [executePreAuthVoters_cons_none resolve rest herr]
      obtain ⟨hlb, hsort⟩ := ih (i + 1)
      rcases preAuthStep_decisionEvents resolve meta c i with hstep | hstep
      · constructor
        · intro n hn
          simp only [List.filterMap_append, hstep, List.nil_append] at hn
          exact Nat.le_of_succ_le (hlb n hn)
        · simpa [List.filterMap_append, hstep] using hsort
      · constructor
        · intro n hn
          simp only [List.filterMap_append, hstep, List.cons_append,
            List.nil_append, List.mem_cons] at hn
          rcases hn with hn | hn
          · exact Nat.le_of_eq hn.symm
          · exact Nat.le_of_succ_le (hlb n hn)
        · simp only [List.filterMap_append, hstep, List.cons_append, List.nil_append]
          exact List.sorted_cons.mpr
            ⟨fun b hb => Nat.lt_of_succ_le (hlb b hb), hsort⟩

theorem executePostAuthVoters_decisions_sorted (metas : List VoterMetadata)
    (c : VoterContext) (i : Nat) :
    (∀ n ∈ (executePostAuthVoters resolve metas c i).1.filterMap decisionIdx, i ≤ n) ∧
    List.Sorted (· < ·)
      ((executePostAuthVoters resolve metas c i).1.filterMap decisionIdx) := by
  induction metas generalizing i with
  | nil => simp [executePostAuthVoters]
  | cons meta rest ih =>
    cases herr : (postAuthStep resolve meta c i).2 with
    | some e =>
      rw [executePostAuthVoters_cons_some resolve rest herr]
      rcases postAuthStep_decisionEvents resolve meta c i with hstep | hstep <;>
        simp [hstep]
    | none =>
      rw [executePostAuthVoters_cons_none resolve rest herr]
      obtain ⟨hlb, hsort⟩ := ih (i + 1)
      rcases postAuthStep_decisionEvents resolve meta c i with hstep | hstep
      · constructor
        · intro n hn
          simp only [List.filterMap_append, hstep, List.nil_append] at hn
          exact Nat.le_of_succ_le (hlb n hn)
        · simpa [List.filterMap_append, hstep] using hsort
      · constructor
        · intro n hn
          simp only [List.filterMap_append, hstep, List.cons_append,
            List.nil_append, List.mem_cons] at hn
          rcases hn with hn | hn
          · exact Nat.le_of_eq hn.symm
          · exact Nat.le_of_succ_le (hlb n hn)
        · simp only [List.filterMap_append, hstep, List.cons_append, List.nil_append]
          exact List.sorted_cons.mpr
            ⟨fun b hb => Nat.lt_of_succ_le (hlb b hb), hsort⟩

theorem passTrace_eventIdx {e : Event} (meta : VoterMetadata) (i : Nat)
    (h : e ∈ passTrace meta i) : eventIdx e = i := by
  unfold passTrace at h
  cases hs : meta.staticMethod with
  | some f =>
    simp only [hs, List.mem_singleton] at h
    simp [h, eventIdx]
  | none =>
    simp only [hs] at h
    cases hc : meta.voterClass with
    | none => simp [hc] at h
    | some cls =>
      simp only [hc, List.mem_cons, List.not_mem_nil, or_false] at h
      rcases h with h | h <;> simp [h, eventIdx]

theorem trueTrace_eventIdx_ub {e : Event} (metas : List VoterMetadata) (i : Nat)
    (h : e ∈ trueTrace metas i) : eventIdx e < i + metas.length := by
  induction metas generalizing i with
  | nil => simp [trueTrace] at h
  | cons meta rest ih =>
    simp only [trueTrace, List.mem_append] at h
    rcases h with h | h
    · rw [passTrace_eventIdx meta i h]
      simp
    · have := ih (i + 1) h
      simp only [List.length_cons]
      omega

theorem postAuthInvoke_eventIdx {e : Event} (voter : Voter) (cls : VoterClass)
    (meta : VoterMetadata) (c : VoterContext) (i : Nat) (tr : List Event)
    (htr : ∀ x ∈ tr, eventIdx x = i)
    (h : e ∈ (postAuthInvoke voter cls meta c i tr).1) : eventIdx e = i := by
  unfold postAuthInvoke at h
  cases hm : voter.methods (orVote meta.methodName) with
  | none =>
    simp only [hm] at h
    exact htr e h
  | some slot =>
    cases slot with
    | notCallable =>
      simp only [hm] at h
      exact htr e h
    | callable f =>
      cases hf : f c <;>
        simp only [hm, hf, Bool.false_eq_true, if_false, if_true,
          List.mem_append, List.mem_singleton] at h <;>
        rcases h with h | h <;>
        first
          | exact htr e h
          | simp [h, eventIdx]

theorem postAuthStep_eventIdx {e : Event} (meta : VoterMetadata)
    (c : VoterContext) (i : Nat)
    (h : e ∈ (postAuthStep resolve meta c i).1) : eventIdx e = i := by
  unfold postAuthStep at h
  cases hs : meta.staticMethod with
  | some f =>
    cases hf : f c <;> simp only [hs, hf, Bool.false_eq_true, if_false, if_true,
      List.mem_singleton] at h <;> simp [h, eventIdx]
  | none =>
    simp only [hs] at h
    cases hc : meta.voterClass with
    | none => simp [hc] at h
    | some cls =>
      simp only [hc] at h
      cases hsup : (resolve cls).supports with
      | some s =>
        simp only [hsup] at h
        cases hd : s c.data with
        | false =>
          simp only [hd, Bool.false_eq_true, if_false, List.mem_cons,
            List.not_mem_nil, or_false] at h
          rcases h with h | h <;> simp [h, eventIdx]
        | true =>
          simp only [hd, if_true] at h
          refine postAuthInvoke_eventIdx (resolve cls) cls meta c i _ ?_ h
          intro x hx
          simp only [List.mem_cons, List.not_mem_nil, or_false] at hx
          rcases hx with hx | hx <;> simp [hx, eventIdx]
      | none =>
        simp only [hsup] at h
        refine postAuthInvoke_eventIdx (resolve cls) cls meta c i _ ?_ h
        intro x hx
        simp only [List.mem_singleton] at hx
        simp [hx, eventIdx]

theorem executePostAuthVoters_eventIdx_lb {e : Event} (metas : List VoterMetadata)
    (c : VoterContext) (i : Nat)
    (h : e ∈ (executePostAuthVoters resolve metas c i).1) : i ≤ eventIdx e := by
  induction metas generalizing i with
  | nil => simp [executePostAuthVoters] at h
  | cons meta rest ih =>
    cases herr : (postAuthStep resolve meta c i).2 with
    | some err =>
      rw [executePostAuthVoters_cons_some resolve rest herr] at h
      exact Nat.le_of_eq (postAuthStep_eventIdx resolve meta c i h).symm
    | none =>
      rw [executePostAuthVoters_cons_none resolve rest herr] at h
      simp only [List.mem_append] at h
      rcases h with h | h
      · exact Nat.le_of_eq (postAuthStep_eventIdx resolve meta c i h).symm
      · exact Nat.le_of_succ_le (ih (i + 1) h)

theorem foldl_registerVoterMetadata (regs init : List VoterMetadata) :
    List.foldl registerVoterMetadata init regs = init ++ regs := by
  induction regs generalizing init with
  | nil => simp
  | cons r rest ih =>
    rw [List.foldl_cons, ih]
    simp [registerVoterMetadata]

end Lemmas

/-- C8: repeated registration calls append descriptors in declaration order
(the registry built by folding the registration step over a list of calls is
that list), and in both phases the decision-function invocation events of an
evaluation run are strictly sorted by rule index — so for any two rules A
and B registered in that order, A's decision function is invoked strictly
before B's. -/
theorem registration_order_equals_evaluation_order (resolve : VoterClass → Voter)
    (regs : List VoterMetadata) (c : VoterContext) :
    List.foldl registerVoterMetadata [] regs = regs ∧
    List.Sorted (· < ·)
      ((executePreAuthVoters resolve
        (List.foldl registerVoterMetadata [] regs) c 0).1.filterMap decisionIdx) ∧
    List.Sorted (· < ·)
      ((executePostAuthVoters resolve
        (List.foldl registerVoterMetadata [] regs) c 0).1.filterMap decisionIdx) := by
  refine ⟨by simp [foldl_registerVoterMetadata], ?_, ?_⟩
  · exact (executePreAuthVoters_decisions_sorted resolve _ c 0).2
  · exact (executePostAuthVoters_decisions_sorted resolve _ c 0).2

/-- C4: for every operation with no registered rules in either phase,
interception is a pure pass-through: the trace records only the handler
call (no rule evaluation, no context construction — the equality holds even
for raw contexts on which `getMethodContext` would throw), and the caller
observes exactly the handler's raw output. -/
theorem no_metadata_pass_through (resolve : VoterClass → Voter) (raw : RawCtx)
    (out : Value) :
    intercept resolve none none raw out = ([Event.handlerCall], Except.ok out) :=
  rfl

/-- C5: for every unary (HTTP) request, the normalized argument map is the
merge of path params, then query params, then body: on a key collision the
later source wins (body over query over path params). -/
theorem http_arguments_merge (raw : RawCtx) (k : String)
    (h : raw.ctxType = CtxType.http) :
    getMethodArguments raw k =
      match raw.body k with
      | some v => some v
      | none =>
        match raw.reqQuery k with
        | some v => some v
        | none => raw.params k := by
  rw [getMethodArguments, if_pos h]
  simp only [objSpread]

/-- Witness for `http_arguments_merge` at the key `"id"`, bound by all three
sources of `rawHttp`: the body value wins. -/
theorem http_arguments_merge_witness :
    rawHttp.ctxType = CtxType.http ∧
    getMethodArguments rawHttp "id" = some (Value.str "fromBody") := by
  refine ⟨rfl, ?_⟩
  rw [http_arguments_merge rawHttp "id" rfl]
  rfl

/-- C1: for every operation whose pre-phase rules all have decision
functions and where rule `k` (position `as.length`, 0-indexed) is the first
to return false, interception runs exactly the decision functions of the
rules before and including `k` in registration order (the decision events
are precisely the indices `0 .. k`), never invokes the handler, and ends in
the `VoterException` denial raised by rule `k`; the rules after `k` are
never invoked. -/
theorem first_false_pre_rule_short_circuits (resolve : VoterClass → Voter)
    (raw : RawCtx) (out : Value) (post : Option (List VoterMetadata))
    (as : List VoterMetadata) (b : VoterMetadata) (bs : List VoterMetadata)
    (hraw : raw.ctxType = CtxType.http)
    (htrue : ∀ m ∈ as,
      decisionOf resolve m (mkVoterContext raw raw.handlerName OperationType.http) = some true)
    (hfalse :
      decisionOf resolve b (mkVoterContext raw raw.handlerName OperationType.http) = some false) :
    intercept resolve (some (as ++ b :: bs)) post raw out =
      (trueTrace as 0 ++ passTrace b as.length,
       Except.error (InterceptError.pre as.length (VoterError.denied (preDenyMsg b)))) ∧
    (trueTrace as 0 ++ passTrace b as.length).filterMap decisionIdx =
      List.range (as.length + 1) ∧
    Event.handlerCall ∉ trueTrace as 0 ++ passTrace b as.length := by
  have hctx : getMethodContext raw = Except.ok (raw.handlerName, OperationType.http) := by
    rw [getMethodContext, if_pos hraw]
  have hstep := preAuthStep_of_decision_false resolve as.length hfalse
  have hpre : executePreAuthVoters resolve (as ++ b :: bs)
      (mkVoterContext raw raw.handlerName OperationType.http) 0 =
      (trueTrace as 0 ++ passTrace b as.length,
       some (as.length, VoterError.denied (preDenyMsg b))) := by
    rw [executePreAuthVoters_all_true resolve (b :: bs) 0 htrue, Nat.zero_add,
      executePreAuthVoters_cons_some resolve bs (by rw [hstep]), hstep]
  refine ⟨?_, ?_, ?_⟩
  · rw [intercept_pre_err resolve (as ++ b :: bs) post raw out hctx (by rw [hpre]), hpre]
  · rw [List.filterMap_append, decisionEvents_of_trueTrace resolve 0 htrue,
      decisionEvents_of_passTrace resolve as.length hfalse,
      List.range_succ, List.range_eq_range']
  · simp only [List.mem_append, not_or]
    exact ⟨handlerCall_notin_trueTrace as 0, handlerCall_notin_passTrace b as.length⟩

/-- Witness for `first_false_pre_rule_short_circuits`: two passing inline
rules, then an always-false inline rule, then one further rule that is never
reached. -/
theorem first_false_pre_rule_short_circuits_witness :
    intercept resolveEmpty (some ([metaTrue, metaTrue] ++ metaFalse :: [metaTrue]))
      none rawHttp Value.null =
      ([Event.evalStatic 0, Event.evalStatic 1, Event.evalStatic 2],
       Except.error (InterceptError.pre 2
         (VoterError.denied "Pre-authorization access denied"))) ∧
    [Event.evalStatic 0, Event.evalStatic 1, Event.evalStatic 2].filterMap decisionIdx =
      List.range 3 ∧
    Event.handlerCall ∉
      [Event.evalStatic 0, Event.evalStatic 1, Event.evalStatic 2] := by
  have h := first_false_pre_rule_short_circuits resolveEmpty rawHttp Value.null none
    [metaTrue, metaTrue] metaFalse [metaTrue] rfl
    (by
      intro m hm
      simp only [List.mem_cons, List.not_mem_nil, or_false] at hm
      rcases hm with hm | hm <;> subst hm <;> rfl)
    rfl
  simpa [trueTrace, passTrace, preDenyMsg, metaTrue, metaFalse] using h

/-- C2 counterexample: an inline predicate (PredicateRule) that denies in
the pre phase produces the fixed reason `"Pre-authorization access denied"`,
which does not begin with `"Pre-authorization denied by "` and hence carries
no rule identity — refuting the claim that the identity-bearing reason
string is produced for PredicateRule descriptors as well. -/
theorem predicate_denial_lacks_rule_identity :
    executePreAuthVoters resolveEmpty [metaFalse] ctxHttp 0 =
      ([Event.evalStatic 0],
       some (0, VoterError.denied "Pre-authorization access denied")) ∧
    ("Pre-authorization denied by ".data.isPrefixOf
      "Pre-authorization access denied".data) = false := by
  exact ⟨rfl, by decide⟩

/-- C2 (amended): a first-denying VoterRule yields the reason
`"Pre-authorization denied by <class>.<method>"` (resp. `"Post-authorization
denied by <class>.<method>"`), while a first-denying PredicateRule yields
the fixed identityless reason `"Pre-authorization access denied"` (resp.
`"Post-authorization access denied"`). -/
theorem denial_reason_strings (resolve : VoterClass → Voter) (c : VoterContext)
    (meta : VoterMetadata) (i : Nat) :
    (∀ cls f, meta.staticMethod = none → meta.voterClass = some cls →
      (resolve cls).methods (orVote meta.methodName) = some (MethodSlot.callable f) →
      f c = false →
      (preAuthStep resolve meta c i).2 = some (i, VoterError.denied
        ("Pre-authorization denied by " ++ cls.name ++ "." ++ orVote meta.methodName))) ∧
    (∀ cls f, meta.staticMethod = none → meta.voterClass = some cls →
      (∀ s, (resolve cls).supports = some s → s c.data = true) →
      (resolve cls).methods (orVote meta.methodName) = some (MethodSlot.callable f) →
      f c = false →
      (postAuthStep resolve meta c i).2 = some (i, VoterError.denied
        ("Post-authorization denied by " ++ cls.name ++ "." ++ orVote meta.methodName))) ∧
    (∀ f, meta.staticMethod = some f → f c = false →
      (preAuthStep resolve meta c i).2 =
        some (i, VoterError.denied "Pre-authorization access denied")) ∧
    (∀ f, meta.staticMethod = some f → f c = false →
      (postAuthStep resolve meta c i).2 =
        some (i, VoterError.denied "Post-authorization access denied")) := by
  refine ⟨?_, ?_, ?_, ?_⟩
  · intro cls f hs hc hm hf
    unfold preAuthStep
    simp [hs, hc, hm, hf]
  · intro cls f hs hc hsup hm hf
    unfold postAuthStep postAuthInvoke
    cases hx : (resolve cls).supports with
    | some s => simp [hs, hc, hx, hsup s hx, hm, hf]
    | none => simp [hs, hc, hx, hm, hf]
  · intro f hs hf
    unfold preAuthStep
    simp [hs, hf]
  · intro f hs hf
    unfold postAuthStep
    simp [hs, hf]

/-- Witness for `denial_reason_strings`: a concrete denying voter method and
a concrete denying predicate, in each phase. -/
theorem denial_reason_strings_witness :
    (preAuthStep resolveDeny metaVoter ctxHttp 0).2 =
      some (0, VoterError.denied "Pre-authorization denied by UserVoter.vote") ∧
    (postAuthStep resolveDeny metaVoter ctxHttp 0).2 =
      some (0, VoterError.denied "Post-authorization denied by UserVoter.vote") ∧
    (preAuthStep resolveEmpty metaFalse ctxHttp 1).2 =
      some (1, VoterError.denied "Pre-authorization access denied") ∧
    (postAuthStep resolveEmpty metaFalse ctxHttp 1).2 =
      some (1, VoterError.denied "Post-authorization access denied") := by
  obtain ⟨h1, h2, -, -⟩ := denial_reason_strings resolveDeny ctxHttp metaVoter 0
  obtain ⟨-, -, h3, h4⟩ := denial_reason_strings resolveEmpty ctxHttp metaFalse 1
  refine ⟨?_, ?_, ?_, ?_⟩
  · exact (h1 clsUser (fun _ => false) rfl rfl rfl rfl).trans (by rfl)
  · exact (h2 clsUser (fun _ => false) rfl rfl
      (fun s hs => by cases hs) rfl rfl).trans (by rfl)
  · exact h3 (fun _ => false) rfl rfl
  · exact h4 (fun _ => false) rfl rfl

/-- C3: in the post phase, a VoterRule whose resolved voter defines
`supports` and whose `supports(producedData)` returns false is skipped: its
named decision method is never invoked (no `evalMethod` event of any kind is
emitted for its index), it raises no error, and evaluation continues with
the remaining rules exactly as when a rule returns true. -/
theorem supports_false_skips_rule (resolve : VoterClass → Voter)
    (c : VoterContext) (meta : VoterMetadata) (cls : VoterClass)
    (s : Value → Bool) (rest : List VoterMetadata) (i : Nat)
    (hstatic : meta.staticMethod = none) (hcls : meta.voterClass = some cls)
    (hsup : (resolve cls).supports = some s) (hdata : s c.data = false) :
    executePostAuthVoters resolve (meta :: rest) c i =
      ([Event.resolveVoter i cls.name, Event.callSupports i cls.name] ++
        (executePostAuthVoters resolve rest c (i + 1)).1,
       (executePostAuthVoters resolve rest c (i + 1)).2) ∧
    (∀ cn mn, Event.evalMethod i cn mn ∉
      (executePostAuthVoters resolve (meta :: rest) c i).1) := by
  have hstep : postAuthStep resolve meta c i =
      ([Event.resolveVoter i cls.name, Event.callSupports i cls.name], none) := by
    unfold postAuthStep
    simp [hstatic, hcls, hsup, hdata]
  have h0 : (postAuthStep resolve meta c i).2 = none := by rw [hstep]
  have hmain := executePostAuthVoters_cons_none resolve rest h0
  rw [hstep] at hmain
  refine ⟨hmain, ?_⟩
  intro cn mn hmem
  rw [hmain] at hmem
  simp only [List.cons_append, List.nil_append, List.mem_cons] at hmem
  rcases hmem with h | h | h
  · cases h
  · cases h
  · have hlb := executePostAuthVoters_eventIdx_lb resolve rest c (i + 1) h
    simp only [eventIdx] at hlb
    omega

/-- Witness for `supports_false_skips_rule`: a voter whose `supports`
rejects the produced data, followed by one passing inline rule. -/
theorem supports_false_skips_rule_witness :
    executePostAuthVoters resolveUnsupported [metaVoter, metaTrue] ctxHttp 0 =
      ([Event.resolveVoter 0 "UserVoter", Event.callSupports 0 "UserVoter"] ++
        (executePostAuthVoters resolveUnsupported [metaTrue] ctxHttp 1).1,
       (executePostAuthVoters resolveUnsupported [metaTrue] ctxHttp 1).2) ∧
    (∀ cn mn, Event.evalMethod 0 cn mn ∉
      (executePostAuthVoters resolveUnsupported [metaVoter, metaTrue] ctxHttp 0).1) := by
  have h := supports_false_skips_rule resolveUnsupported ctxHttp metaVoter clsUser
    (fun _ => false) [metaTrue] 0 rfl rfl rfl rfl
  simpa [clsUser] using h

/-- C6: an invocation with some registered metadata whose transport is
structured (GraphQL) and whose operation kind is none of query, mutation or
subscription fails with the unsupported-operation `Error` before any rule is
evaluated (the trace is empty, so no decision function and no handler ever
run), and that error is not a denial raised by any rule of either phase. -/
theorem unknown_operation_kind_fails_fast (resolve : VoterClass → Voter)
    (pre post : Option (List VoterMetadata)) (raw : RawCtx) (out : Value)
    (hg : raw.ctxType = CtxType.graphql)
    (hq : raw.gqlOperation ≠ "query") (hm : raw.gqlOperation ≠ "mutation")
    (hs : raw.gqlOperation ≠ "subscription")
    (hmeta : pre.isSome ∨ post.isSome) :
    intercept resolve pre post raw out =
      ([], Except.error (InterceptError.unknownOperation
        ("Unknown GraphQL operation type: " ++ raw.gqlOperation))) ∧
    (∀ i e, (intercept resolve pre post raw out).2 ≠
        Except.error (InterceptError.pre i e) ∧
      (intercept resolve pre post raw out).2 ≠
        Except.error (InterceptError.post i e)) := by
  have hctx : getMethodContext raw = Except.error
      ("Unknown GraphQL operation type: " ++ raw.gqlOperation) := by
    rw [getMethodContext, if_neg (by rw [hg]; exact fun h => by cases h),
      if_neg hq, if_neg hm, if_neg hs]
  have hmain : intercept resolve pre post raw out =
      ([], Except.error (InterceptError.unknownOperation
        ("Unknown GraphQL operation type: " ++ raw.gqlOperation))) := by
    cases pre with
    | none =>
      cases post with
      | none => simp at hmeta
      | some qm =>
        unfold intercept
        rw [hctx]
    | some pm =>
      cases post with
      | none =>
        unfold intercept
        rw [hctx]
      | some qm =>
        unfold intercept
        rw [hctx]
  refine ⟨hmain, ?_⟩
  intro i e
  refine ⟨fun h => ?_, fun h => ?_⟩ <;> rw [hmain] at h <;> simp at h

/-- Witness for `unknown_operation_kind_fails_fast`: a GraphQL context with
operation string `"subscribe"` and one registered pre rule. -/
theorem unknown_operation_kind_fails_fast_witness :
    intercept resolveEmpty (some [metaTrue]) none rawGqlBadOp Value.null =
      ([], Except.error (InterceptError.unknownOperation
        "Unknown GraphQL operation type: subscribe")) := by
  have h := (unknown_operation_kind_fails_fast resolveEmpty (some [metaTrue]) none
    rawGqlBadOp Value.null rfl (by decide) (by decide) (by decide)
    (Or.inl rfl)).1
  exact h.trans (by rfl)

/-- C7: when the pre phase reaches a VoterRule whose named method is absent
on the resolved voter instance, evaluation raises the method-not-found
`Error` (not a denial), that rule's decision method is never invoked, and
the handler never runs; when the named property exists but is not callable,
the distinct not-callable `TypeError` is raised instead. -/
theorem missing_method_is_config_error (resolve : VoterClass → Voter)
    (raw : RawCtx) (out : Value) (post : Option (List VoterMetadata))
    (as : List VoterMetadata) (b : VoterMetadata) (bs : List VoterMetadata)
    (cls : VoterClass)
    (hraw : raw.ctxType = CtxType.http)
    (htrue : ∀ m ∈ as,
      decisionOf resolve m (mkVoterContext raw raw.handlerName OperationType.http) = some true)
    (hstatic : b.staticMethod = none) (hcls : b.voterClass = some cls) :
    ((resolve cls).methods (orVote b.methodName) = none →
      intercept resolve (some (as ++ b :: bs)) post raw out =
        (trueTrace as 0 ++ [Event.resolveVoter as.length cls.name],
         Except.error (InterceptError.pre as.length (VoterError.methodNotFound
           ("Method " ++ orVote b.methodName ++ " not found in " ++ cls.name)))) ∧
      Event.handlerCall ∉ trueTrace as 0 ++ [Event.resolveVoter as.length cls.name] ∧
      (∀ cn mn, Event.evalMethod as.length cn mn ∉
        trueTrace as 0 ++ [Event.resolveVoter as.length cls.name])) ∧
    ((resolve cls).methods (orVote b.methodName) = some MethodSlot.notCallable →
      intercept resolve (some (as ++ b :: bs)) post raw out =
        (trueTrace as 0 ++ [Event.resolveVoter as.length cls.name],
         Except.error (InterceptError.pre as.length (VoterError.notCallable
           (orVote b.methodName ++ " is not a function in " ++ cls.name)))) ∧
      Event.handlerCall ∉ trueTrace as 0 ++ [Event.resolveVoter as.length cls.name] ∧
      (∀ cn mn, Event.evalMethod as.length cn mn ∉
        trueTrace as 0 ++ [Event.resolveVoter as.length cls.name])) := by
  have hctx : getMethodContext raw = Except.ok (raw.handlerName, OperationType.http) := by
    rw [getMethodContext, if_pos hraw]
  have hside : Event.handlerCall ∉
      trueTrace as 0 ++ [Event.resolveVoter as.length cls.name] := by
    simp only [List.mem_append, List.mem_singleton, not_or]
    exact ⟨handlerCall_notin_trueTrace as 0, fun h => by cases h⟩
  have hside2 : ∀ cn mn, Event.evalMethod as.length cn mn ∉
      trueTrace as 0 ++ [Event.resolveVoter as.length cls.name] := by
    intro cn mn hmem
    simp only [List.mem_append, List.mem_singleton] at hmem
    rcases hmem with h | h
    · have := trueTrace_eventIdx_ub as 0 h
      simp [eventIdx] at this
    · cases h
  constructor
  · intro hmethod
    have hstep : preAuthStep resolve b
        (mkVoterContext raw raw.handlerName OperationType.http) as.length =
        ([Event.resolveVoter as.length cls.name],
         some (as.length, VoterError.methodNotFound
           ("Method " ++ orVote b.methodName ++ " not found in " ++ cls.name))) := by
      unfold preAuthStep
      simp [hstatic, hcls, hmethod]
    have hpre : executePreAuthVoters resolve (as ++ b :: bs)
        (mkVoterContext raw raw.handlerName OperationType.http) 0 =
        (trueTrace as 0 ++ [Event.resolveVoter as.length cls.name],
         some (as.length, VoterError.methodNotFound
           ("Method " ++ orVote b.methodName ++ " not found in " ++ cls.name))) := by
      rw [executePreAuthVoters_all_true resolve (b :: bs) 0 htrue, Nat.zero_add,
        executePreAuthVoters_cons_some resolve bs (by rw [hstep]), hstep]
    refine ⟨?_, hside, hside2⟩
    rw [intercept_pre_err resolve (as ++ b :: bs) post raw out hctx (by rw [hpre]), hpre]
  · intro hmethod
    have hstep : preAuthStep resolve b
        (mkVoterContext raw raw.handlerName OperationType.http) as.length =
        ([Event.resolveVoter as.length cls.name],
         some (as.length, VoterError.notCallable
           (orVote b.methodName ++ " is not a function in " ++ cls.name))) := by
      unfold preAuthStep
      simp [hstatic, hcls, hmethod]
    have hpre : executePreAuthVoters resolve (as ++ b :: bs)
        (mkVoterContext raw raw.handlerName OperationType.http) 0 =
        (trueTrace as 0 ++ [Event.resolveVoter as.length cls.name],
         some (as.length, VoterError.notCallable
           (orVote b.methodName ++ " is not a function in " ++ cls.name))) := by
      rw [executePreAuthVoters_all_true resolve (b :: bs) 0 htrue, Nat.zero_add,
        executePreAuthVoters_cons_some resolve bs (by rw [hstep]), hstep]
    refine ⟨?_, hside, hside2⟩
    rw [intercept_pre_err resolve (as ++ b :: bs) post raw out hctx (by rw [hpre]), hpre]

/-- Witness for `missing_method_is_config_error`: a voter rule resolved to a
voter with no `vote` property (method-not-found), and one resolved to a
voter whose `vote` property is not callable (TypeError). -/
theorem missing_method_is_config_error_witness :
    (intercept resolveEmpty (some [metaVoter]) none rawHttp Value.null).2 =
      Except.error (InterceptError.pre 0 (VoterError.methodNotFound
        "Method vote not found in UserVoter")) ∧
    (intercept resolveBadVote (some [metaVoter]) none rawHttp Value.null).2 =
      Except.error (InterceptError.pre 0 (VoterError.notCallable
        "vote is not a function in UserVoter")) := by
  have h1 := (missing_method_is_config_error resolveEmpty rawHttp Value.null none
    [] metaVoter [] clsUser rfl (by intro m hm; cases hm) rfl rfl).1 rfl
  have h2 := (missing_method_is_config_error resolveBadVote rawHttp Value.null none
    [] metaVoter [] clsUser rfl (by intro m hm; cases hm) rfl rfl).2 rfl
  constructor
  · have h := h1.1
    simp only [List.nil_append] at h
    rw [h]
    rfl
  · have h := h2.1
    simp only [List.nil_append] at h
    rw [h]
    rfl

/-- C9: a descriptor carrying both an inline predicate and a voter class is
decided by the predicate alone, in both phases: the trace records only the
predicate invocation (so the voter class is never resolved, `supports` is
never called, and no named method is looked up or invoked), and the outcome
is the predicate's verdict. -/
theorem static_method_takes_precedence (resolve : VoterClass → Voter)
    (c : VoterContext) (meta : VoterMetadata) (i : Nat)
    (f : VoterContext → Bool) (cls : VoterClass)
    (hf : meta.staticMethod = some f) (hcls : meta.voterClass = some cls) :
    preAuthStep resolve meta c i =
      ([Event.evalStatic i],
       if f c then none
       else some (i, VoterError.denied "Pre-authorization access denied")) ∧
    postAuthStep resolve meta c i =
      ([Event.evalStatic i],
       if f c then none
       else some (i, VoterError.denied "Post-authorization access denied")) := by
  constructor
  · unfold preAuthStep
    cases hfc : f c <;> simp [hf, hfc]
  · unfold postAuthStep
    cases hfc : f c <;> simp [hf, hfc]

/-- Witness for `static_method_takes_precedence`: the combined descriptor
passes via its predicate even though the resolver would hand back a voter
with no methods at all. -/
theorem static_method_takes_precedence_witness :
    preAuthStep resolveEmpty metaBoth ctxHttp 0 = ([Event.evalStatic 0], none) ∧
    postAuthStep resolveEmpty metaBoth ctxHttp 0 = ([Event.evalStatic 0], none) := by
  have h := static_method_takes_precedence resolveEmpty ctxHttp metaBoth 0
    (fun _ => true) clsUser rfl rfl
  exact ⟨h.1.trans (by rfl), h.2.trans (by rfl)⟩

/-- C10: a descriptor carrying neither an inline predicate nor a voter
class is silently treated as allowed in both phases: it emits no event,
raises no error, and evaluation continues with the next rule. -/
theorem empty_descriptor_fail_open (resolve : VoterClass → Voter)
    (c : VoterContext) (meta : VoterMetadata) (rest : List VoterMetadata)
    (i : Nat)
    (hstatic : meta.staticMethod = none) (hcls : meta.voterClass = none) :
    executePreAuthVoters resolve (meta :: rest) c i =
      executePreAuthVoters resolve rest c (i + 1) ∧
    executePostAuthVoters resolve (meta :: rest) c i =
      executePostAuthVoters resolve rest c (i + 1) := by
  have hpre : preAuthStep resolve meta c i = ([], none) := by
    unfold preAuthStep
    simp [hstatic, hcls]
  have hpost : postAuthStep resolve meta c i = ([], none) := by
    unfold postAuthStep
    simp [hstatic, hcls]
  constructor
  · rw [executePreAuthVoters_cons_none resolve rest (by rw [hpre]), hpre]
    simp
  · rw [executePostAuthVoters_cons_none resolve rest (by rw [hpost]), hpost]
    simp

/-- Witness for `empty_descriptor_fail_open`: the empty descriptor followed
by a passing inline rule. -/
theorem empty_descriptor_fail_open_witness :
    executePreAuthVoters resolveEmpty [metaEmptyDesc, metaTrue] ctxHttp 0 =
      executePreAuthVoters resolveEmpty [metaTrue] ctxHttp 1 ∧
    executePostAuthVoters resolveEmpty [metaEmptyDesc, metaTrue] ctxHttp 0 =
      executePostAuthVoters resolveEmpty [metaTrue] ctxHttp 1 :=
  empty_descriptor_fail_open resolveEmpty ctxHttp metaEmptyDesc [metaTrue] 0 rfl rfl

end NestVoter
